import Mathlib

/-!
Shallow embedding of the per-room signaling hub (`SignalDurableObject`).

The repository contains two variants of the same class in one source file:
a lenient variant (referred to below as V1) that mirrors the upstream
y-webrtc sample, and a hardened variant (V2) whose field names (`alive`,
`quit`) match the specification. Where the two variants agree the embedding
is written once, following the V2 text; where they diverge
(`handleUnsubscribe`, `send`, the publish guard) both are embedded under
distinct names.

Modelling conventions:
- A `WebSocket` handle is an opaque identifier, modelled as `Nat`
  (the spec itself suggests keying tables by a stable connection id).
- A JS `Map` is an association list with JS-Map semantics: `set` on a
  present key replaces the value in place, `set` on an absent key appends,
  `delete` removes the entry, lookup finds the (unique) entry.
- A JS `Set` is a duplicate-free list in insertion order: `add` appends if
  absent, `delete` filters.
- `JSON.parse` is a host primitive; its outcome is modelled as
  `Option Json` (`none` for a parse exception, `some j` for a parsed value).
- State-mutating handlers become functions `HubState → ... → HubState`,
  and the writes a handler performs (`this.send(receiver, msg)`) are
  returned as an explicit list of `(receiver, frame)` pairs.
-/

namespace SignalHub

/-- Lookup in a JS `Map` modelled as an association list (first match). -/
def lookupA {α β : Type} [DecidableEq α] : List (α × β) → α → Option β
  | [], _ => none
  | p :: ps, k => if p.1 = k then some p.2 else lookupA ps k

/-- JS `Map.set`: replace the value at the first matching key in place,
or append the new entry at the end (JS Map insertion order). -/
def setA {α β : Type} [DecidableEq α] : List (α × β) → α → β → List (α × β)
  | [], k, v => [(k, v)]
  | p :: ps, k, v => if p.1 = k then (k, v) :: ps else p :: setA ps k v

/-- JS `Map.delete`: remove the first matching entry. -/
def eraseA {α β : Type} [DecidableEq α] : List (α × β) → α → List (α × β)
  | [], _ => []
  | p :: ps, k => if p.1 = k then ps else p :: eraseA ps k

/-- The keys of an association list. -/
def keysA {α β : Type} (l : List (α × β)) : List α := l.map Prod.fst

/-- Well-formedness of a JS `Map` image: keys occur at most once. -/
def NodupA {α β : Type} (l : List (α × β)) : Prop := (keysA l).Nodup

/-- JS `Set.add`: append if not already present (insertion order kept). -/
def insertS {α : Type} [DecidableEq α] (l : List α) (x : α) : List α :=
  if x ∈ l then l else l ++ [x]

/-- JS `Set.delete`: remove the element. -/
def eraseS {α : Type} [DecidableEq α] (l : List α) (x : α) : List α :=
  l.filter (fun y => ¬ y = x)

/-- JSON values, as produced by `JSON.parse`. Objects keep field order. -/
inductive Json : Type where
  | null : Json
  | bool (b : Bool) : Json
  | num (n : Int) : Json
  | str (s : String) : Json
  | arr (xs : List Json) : Json
  | obj (fields : List (String × Json)) : Json

/-- JS property access `j.k` on a parsed value: defined on objects,
`undefined` (here `none`) otherwise. -/
def Json.getField : Json → String → Option Json
  | .obj fields, k => lookupA fields k
  | _, _ => none

/-- The object spread-and-assign `{...j, k: v}`: if `k` was present its
value is replaced keeping its position, otherwise `k` is appended. -/
def Json.setField : Json → String → Json → Json
  | .obj fields, k, v => .obj (setA fields k v)
  | j, _, _ => j

/-- The value of a `type` field when it is a string (the shape every
validated message has). -/
def Json.getType (j : Json) : Option String :=
  match j.getField "type" with
  | some (.str t) => some t
  | _ => none

/-- The `topics` field as a list of strings (validation guarantees every
element is a string; non-strings are dropped, matching that guarantee). -/
def Json.getTopics (j : Json) : List String :=
  match j.getField "topics" with
  | some (.arr xs) => xs.filterMap (fun x => match x with
      | .str s => some s
      | _ => none)
  | _ => []

/-- `validTypes` from `isValidMessage`. -/
def validTypes : List String := ["ping", "pong", "publish", "subscribe", "unsubscribe"]

/-- `obj.topics` is an array whose every element is a string. -/
def topicsFieldOk (j : Json) : Bool :=
  match j.getField "topics" with
  | some (.arr xs) => xs.all (fun x => match x with
      | .str _ => true
      | _ => false)
  | _ => false

/-- `isValidMessage` (hardened variant V2): the value must be an object
whose `type` is one of the five recognized strings, with the per-type
shape (`subscribe`/`unsubscribe`: array of topic-name strings, `publish`:
string `topic`, `ping`/`pong`: nothing further). -/
def isValidMessage : Json → Bool
  | .obj fields =>
    match lookupA fields "type" with
    | some (.str t) =>
      if ¬ t ∈ validTypes then false
      else
        match t with
        | "subscribe" => topicsFieldOk (.obj fields)
        | "unsubscribe" => topicsFieldOk (.obj fields)
        | "publish" =>
          match lookupA fields "topic" with
          | some (.str _) => true
          | _ => false
        | _ => true
    | _ => false
  | _ => false

/-- `parseMessage` (V2): `JSON.parse` failure (`none`) or a value rejected
by `isValidMessage` yields no command. -/
def parseMessage (data : Option Json) : Option Json :=
  match data with
  | none => none
  | some j => if isValidMessage j then some j else none

/-- Per-connection session state (V2 field names; V1 has `closed` for
`quit` and `pongReceived` for `alive`, with identical roles). -/
structure SessionData where
  subscribedTopics : List String
  alive : Bool
  quit : Bool
  intervalId : Option Nat
  deriving DecidableEq

/-- The hub state owned by one room: the session table and the topic
index. -/
structure HubState where
  sessions : List (Nat × SessionData)
  topics : List (String × List Nat)
  deriving DecidableEq

/-- `addSubscription`: create the topic entry if absent, add the
connection to its subscriber set, record the topic in the session. -/
def addSubscription (st : HubState) (ws : Nat) (t : String) : HubState :=
  let topics1 := if (lookupA st.topics t).isNone then setA st.topics t [] else st.topics
  let subs := (lookupA topics1 t).getD []
  let topics2 := setA topics1 t (insertS subs ws)
  let sessions2 :=
    match lookupA st.sessions ws with
    | some s => setA st.sessions ws { s with subscribedTopics := insertS s.subscribedTopics t }
    | none => st.sessions
  { sessions := sessions2, topics := topics2 }

/-- `removeSubscription`: delete the connection from the topic entry,
delete the entry when its subscriber set becomes empty, and remove the
topic from the session. -/
def removeSubscription (st : HubState) (ws : Nat) (t : String) : HubState :=
  let topics2 :=
    match lookupA st.topics t with
    | some subs =>
      let subs2 := eraseS subs ws
      if subs2.length = 0 then eraseA st.topics t else setA st.topics t subs2
    | none => st.topics
  let sessions2 :=
    match lookupA st.sessions ws with
    | some s => setA st.sessions ws { s with subscribedTopics := eraseS s.subscribedTopics t }
    | none => st.sessions
  { sessions := sessions2, topics := topics2 }

/-- `handleSubscribe`: `addSubscription` for each named topic. -/
def handleSubscribe (st : HubState) (ws : Nat) (topics : List String) : HubState :=
  topics.foldl (fun acc t => addSubscription acc ws t) st

/-- `handleUnsubscribe` (hardened variant V2): `removeSubscription` for
each named topic. -/
def handleUnsubscribeV2 (st : HubState) (ws : Nat) (topics : List String) : HubState :=
  topics.foldl (fun acc t => removeSubscription acc ws t) st

/-- `handleUnsubscribe` (lenient variant V1, lines 183-194): only
`subs.delete(ws)` on the topic entry; the entry is kept even when it
becomes empty and the session's `subscribedTopics` is not touched. -/
def handleUnsubscribeV1 (st : HubState) (ws : Nat) (topics : List String) : HubState :=
  topics.foldl (fun acc t =>
    match lookupA acc.topics t with
    | some subs => { acc with topics := setA acc.topics t (eraseS subs ws) }
    | none => acc) st

/-- `handlePublish` (hardened variant V2, lines 507-519): look up the
topic's subscriber set; if absent or empty do nothing; otherwise issue one
`send` call per subscriber carrying the message extended with
`clients: receivers.size`. Returns the list of send calls in order. A
non-string `topic` value finds no entry in the string-keyed map, so no
send is issued. -/
def handlePublish (st : HubState) (msg : Json) : List (Nat × Json) :=
  match msg.getField "topic" with
  | some (.str t) =>
    match lookupA st.topics t with
    | some receivers =>
      if receivers.length = 0 then []
      else receivers.map (fun r => (r, msg.setField "clients" (.num receivers.length)))
    | none => []
  | _ => []

/-- `handlePublish` (lenient variant V1, lines 215-229): same fan-out
body, but opened by `if (!message.topic) return` — a publish whose
`topic` field is absent or falsy is dropped before the lookup. For a
string topic the falsy value is the empty string; a falsy non-string
(and, as in V2, a truthy non-string, which misses the string-keyed map)
also issues no send. -/
def handlePublishV1 (st : HubState) (msg : Json) : List (Nat × Json) :=
  match msg.getField "topic" with
  | some (.str t) =>
    if t = "" then []
    else
      match lookupA st.topics t with
      | some receivers =>
        if receivers.length = 0 then []
        else receivers.map (fun r => (r, msg.setField "clients" (.num receivers.length)))
      | none => []
  | _ => []

/-- The `{type: "pong"}` reply frame. -/
def pongFrame : Json := .obj [("type", .str "pong")]

/-- The `{type: "ping"}` probe frame. -/
def pingFrame : Json := .obj [("type", .str "ping")]

/-- `handleMessage` (V2): drop the frame when the session has quit,
otherwise dispatch on `message.type`. Returns the new state and the send
calls issued. -/
def handleMessage (st : HubState) (ws : Nat) (msg : Json) : HubState × List (Nat × Json) :=
  match lookupA st.sessions ws with
  | none => (st, [])
  | some s =>
    if s.quit then (st, [])
    else
      match msg.getType with
      | some "subscribe" => (handleSubscribe st ws msg.getTopics, [])
      | some "unsubscribe" => (handleUnsubscribeV2 st ws msg.getTopics, [])
      | some "publish" => (st, handlePublish st msg)
      | some "ping" => (st, [(ws, pongFrame)])
      | some "pong" =>
        ({ st with sessions := setA st.sessions ws { s with alive := true } }, [])
      | _ => (st, [])

/-- The `message` event listener (V2): parse, then dispatch when a command
was produced; a discarded frame causes no state change and no send. -/
def onMessage (st : HubState) (ws : Nat) (data : Option Json) : HubState × List (Nat × Json) :=
  match parseMessage data with
  | some m => handleMessage st ws m
  | none => (st, [])

/-- Effects of a `closeSession` call, in program order: whether it set the
`quit` latch, whether it called `clearInterval`, which topics it removed
the connection from, and whether it called `ws.close()`. -/
structure CloseEffects where
  markedQuit : Bool
  cancelledTimer : Bool
  removedTopics : List String
  closedConn : Bool
  deriving DecidableEq

/-- `closeSession` (teardown): a no-op when the session is no longer in
the table; otherwise set `quit`, cancel the heartbeat timer if armed,
remove the session from every subscribed topic, delete it from the table
and close the connection. -/
def closeSession (st : HubState) (ws : Nat) : HubState × CloseEffects :=
  match lookupA st.sessions ws with
  | none => (st, ⟨false, false, [], false⟩)
  | some s =>
    let st1 : HubState :=
      { st with sessions := setA st.sessions ws { s with quit := true, intervalId := none } }
    let st2 := s.subscribedTopics.foldl (fun acc t => removeSubscription acc ws t) st1
    let st3 : HubState := { st2 with sessions := eraseA st2.sessions ws }
    (st3, ⟨true, s.intervalId.isSome, s.subscribedTopics, true⟩)

/-- `handleSession`: accept the connection and install a fresh session
with an empty topic set, `alive` initialized to true, `quit` false and the
heartbeat interval armed (`tid` is the `setInterval` handle). -/
def handleSession (st : HubState) (ws : Nat) (tid : Nat) : HubState :=
  { st with sessions := setA st.sessions ws ⟨[], true, false, some tid⟩ }

/-- One firing of the heartbeat interval (V2, `handleSession` closure):
when `alive` is false the session is torn down and the interval cleared;
otherwise `alive` is set false and a ping probe is sent. Returns the new
state, the send calls, and whether the interval was cancelled. The closure
captures the session object, which coincides with the table entry whenever
one is present; the interval is cancelled before any teardown removes the
entry, so the absent case never fires in the program. -/
def heartbeatTick (st : HubState) (ws : Nat) : HubState × List (Nat × Json) × Bool :=
  match lookupA st.sessions ws with
  | none => (st, [], false)
  | some s =>
    if ¬ s.alive then ((closeSession st ws).1, [], true)
    else ({ st with sessions := setA st.sessions ws { s with alive := false } }, [(ws, pingFrame)], false)

/-- Transport behaviour visible to `send`: the readyState of each
connection and whether a raw `ws.send` on it throws. -/
structure Transport where
  readyState : Nat → Nat
  sendFails : Nat → Bool

/-- `wsReadyStateConnecting` (V1 constant). -/
def wsReadyStateConnecting : Nat := 0

/-- `wsReadyStateOpen` (V1 constant). -/
def wsReadyStateOpen : Nat := 1

/-- `send` (lenient variant V1, lines 231-241): a connection that is
neither connecting nor open is closed without a send attempt; a throwing
`ws.send` is caught and the connection closed. Returns the delivery, if
any, and whether `ws.close()` was called. -/
def sendV1 (tr : Transport) (ws : Nat) (msg : Json) : Option (Nat × Json) × Bool :=
  if ¬ (tr.readyState ws = wsReadyStateConnecting ∨ tr.readyState ws = wsReadyStateOpen) then
    (none, true)
  else if tr.sendFails ws then (none, true)
  else (some (ws, msg), false)

/-- `send` (hardened variant V2, lines 521-527): a throwing `ws.send` is
caught and only logged via `handleError`; the connection is never closed
by `send`. -/
def sendV2 (tr : Transport) (ws : Nat) (msg : Json) : Option (Nat × Json) × Bool :=
  if tr.sendFails ws then (none, false)
  else (some (ws, msg), false)

/-- The fan-out loop `receivers.forEach(r => this.send(r, msg))` run over
a given send method: each subscriber is attempted independently, in
order, accumulating the successful deliveries and the connections the
send method closed. -/
def fanoutWith (send : Transport → Nat → Json → Option (Nat × Json) × Bool)
    (tr : Transport) (receivers : List Nat) (msg : Json) :
    List (Nat × Json) × List Nat :=
  match receivers with
  | [] => ([], [])
  | r :: rs =>
    let res := send tr r msg
    let rest := fanoutWith send tr rs msg
    (res.1.toList ++ rest.1, (if res.2 then [r] else []) ++ rest.2)

/-- The topic-emptiness invariant: no topic entry has an empty subscriber
set. -/
def TopicsNonempty (st : HubState) : Prop :=
  ∀ p ∈ st.topics, p.2 ≠ ([] : List Nat)

/-- The bidirectional consistency invariant: a topic is in an open
session's `subscribedTopics` iff that session's connection is in the
topic's subscriber set. -/
def Consistent (st : HubState) : Prop :=
  ∀ ws s, lookupA st.sessions ws = some s →
    ∀ t, t ∈ s.subscribedTopics ↔ ∃ subs, lookupA st.topics t = some subs ∧ ws ∈ subs

section AssocLemmas

variable {α β : Type} [DecidableEq α]

theorem lookupA_setA_self (l : List (α × β)) (k : α) (v : β) :
    lookupA (setA l k v) k = some v := by
  induction l with
  | nil => simp [setA, lookupA]
  | cons p ps ih =>
    by_cases h : p.1 = k
    · simp [setA, h, lookupA]
    · simp [setA, h, lookupA, ih]

theorem lookupA_setA_ne (l : List (α × β)) (k : α) (v : β) (q : α) (hq : q ≠ k) :
    lookupA (setA l k v) q = lookupA l q := by
  have hkq : ¬ k = q := fun h => hq h.symm
  induction l with
  | nil => simp [setA, lookupA, hkq]
  | cons p ps ih =>
    by_cases h : p.1 = k
    · have hpq : ¬ p.1 = q := by rw [h]; exact hkq
      simp [setA, h, lookupA, hkq, hpq]
    · simp [setA, h, lookupA, ih]

theorem setA_lookupA_eq (l : List (α × β)) (k : α) (v : β) (h : lookupA l k = some v) :
    setA l k v = l := by
  induction l with
  | nil => simp [lookupA] at h
  | cons p ps ih =>
    by_cases hp : p.1 = k
    · simp [lookupA, hp] at h
      have hpv : p = (k, v) := by
        cases p
        simp_all
      simp [setA, hp, hpv]
    · simp [lookupA, hp] at h
      simp [setA, hp, ih h]

theorem lookupA_eq_none_iff (l : List (α × β)) (k : α) :
    lookupA l k = none ↔ ∀ p ∈ l, p.1 ≠ k := by
  induction l with
  | nil => simp [lookupA]
  | cons p ps ih =>
    by_cases hp : p.1 = k
    · simp [lookupA, hp]
    · simp [lookupA, hp, ih]

theorem lookupA_eraseA_ne (l : List (α × β)) (k : α) (q : α) (hq : q ≠ k) :
    lookupA (eraseA l k) q = lookupA l q := by
  have hkq : ¬ k = q := fun h => hq h.symm
  induction l with
  | nil => simp [eraseA]
  | cons p ps ih =>
    by_cases h : p.1 = k
    · have hpq : ¬ p.1 = q := by rw [h]; exact hkq
      simp [eraseA, h, lookupA, hpq, hkq]
    · simp [eraseA, h, lookupA, ih]

theorem eraseA_sublist (l : List (α × β)) (k : α) : (eraseA l k).Sublist l := by
  induction l with
  | nil => simp [eraseA]
  | cons p ps ih =>
    by_cases h : p.1 = k
    · rw [show eraseA (p :: ps) k = ps by simp [eraseA, h]]
      exact List.sublist_cons_self p ps
    · rw [show eraseA (p :: ps) k = p :: eraseA ps k by simp [eraseA, h]]
      exact ih.cons₂ p

theorem mem_of_mem_eraseA {l : List (α × β)} {k : α} {p : α × β}
    (h : p ∈ eraseA l k) : p ∈ l :=
  (eraseA_sublist l k).mem h

omit [DecidableEq α] in
theorem keysA_cons (p : α × β) (l : List (α × β)) : keysA (p :: l) = p.1 :: keysA l := rfl

omit [DecidableEq α] in
theorem NodupA_cons {p : α × β} {ps : List (α × β)} (h : NodupA (p :: ps)) :
    p.1 ∉ keysA ps ∧ NodupA ps := by
  rw [NodupA, keysA_cons, List.nodup_cons] at h
  exact ⟨h.1, h.2⟩

theorem lookupA_eraseA_self (l : List (α × β)) (k : α) (h : NodupA l) :
    lookupA (eraseA l k) k = none := by
  induction l with
  | nil => simp [eraseA, lookupA]
  | cons p ps ih =>
    obtain ⟨hnm, hnd⟩ := NodupA_cons h
    by_cases hp : p.1 = k
    · have he : eraseA (p :: ps) k = ps := by simp [eraseA, hp]
      rw [he, lookupA_eq_none_iff]
      intro q hq hbad
      have hq1 : q.1 ∈ keysA ps := List.mem_map_of_mem Prod.fst hq
      rw [hbad] at hq1
      rw [hp] at hnm
      exact hnm hq1
    · simp [eraseA, hp, lookupA, ih hnd]

theorem mem_setA {l : List (α × β)} {k : α} {v : β} {p : α × β}
    (h : p ∈ setA l k v) : p = (k, v) ∨ p ∈ l := by
  induction l with
  | nil => simpa [setA] using h
  | cons q qs ih =>
    by_cases hq : q.1 = k
    · simp [setA, hq] at h
      rcases h with h | h
      · exact Or.inl h
      · exact Or.inr (List.mem_cons_of_mem q h)
    · simp [setA, hq] at h
      rcases h with h | h
      · exact Or.inr (h ▸ List.mem_cons_self q qs)
      · rcases ih h with h2 | h2
        · exact Or.inl h2
        · exact Or.inr (List.mem_cons_of_mem q h2)

theorem keysA_setA (l : List (α × β)) (k : α) (v : β) :
    keysA (setA l k v) = if k ∈ keysA l then keysA l else keysA l ++ [k] := by
  induction l with
  | nil => simp [setA, keysA]
  | cons p ps ih =>
    by_cases hp : p.1 = k
    · have hmem : k ∈ keysA (p :: ps) := by
        rw [keysA_cons, hp]
        exact List.mem_cons_self k (keysA ps)
      rw [if_pos hmem]
      simp only [setA]
      rw [if_pos hp, keysA_cons, keysA_cons, hp]
    · simp only [setA]
      rw [if_neg hp, keysA_cons, keysA_cons, ih]
      by_cases hm : k ∈ keysA ps
      · rw [if_pos hm, if_pos (List.mem_cons_of_mem p.1 hm)]
      · have hnot : k ∉ p.1 :: keysA ps := by
          rw [List.mem_cons]
          push_neg
          exact ⟨fun h => hp h.symm, hm⟩
        rw [if_neg hm, if_neg hnot, List.cons_append]

theorem NodupA_setA {l : List (α × β)} (k : α) (v : β) (h : NodupA l) :
    NodupA (setA l k v) := by
  unfold NodupA
  rw [keysA_setA]
  by_cases hm : k ∈ keysA l
  · simpa [hm] using h
  · simp only [hm, if_false]
    refine List.Nodup.append h (List.nodup_singleton k) ?_
    simpa using fun hc => hm hc

theorem NodupA_eraseA {l : List (α × β)} (k : α) (h : NodupA l) :
    NodupA (eraseA l k) :=
  List.Nodup.sublist (List.Sublist.map Prod.fst (eraseA_sublist l k)) h

theorem setA_setA (l : List (α × β)) (k : α) (v w : β) :
    setA (setA l k v) k w = setA l k w := by
  induction l with
  | nil => simp [setA]
  | cons p ps ih =>
    by_cases h : p.1 = k
    · simp [setA, h]
    · simp [setA, h, ih]

theorem setA_absent (l : List (α × β)) (k : α) (v : β) (h : lookupA l k = none) :
    setA l k v = l ++ [(k, v)] := by
  induction l with
  | nil => simp [setA]
  | cons p ps ih =>
    rw [lookupA_eq_none_iff] at h
    have hp : ¬ p.1 = k := h p (List.mem_cons_self p ps)
    have hps : lookupA ps k = none := by
      rw [lookupA_eq_none_iff]
      exact fun q hq => h q (List.mem_cons_of_mem p hq)
    simp [setA, hp, ih hps]

theorem setA_append_absent (l : List (α × β)) (k : α) (w v : β)
    (h : lookupA l k = none) :
    setA (l ++ [(k, w)]) k v = l ++ [(k, v)] := by
  induction l with
  | nil => simp [setA]
  | cons p ps ih =>
    rw [lookupA_eq_none_iff] at h
    have hp : ¬ p.1 = k := h p (List.mem_cons_self p ps)
    have hps : lookupA ps k = none := by
      rw [lookupA_eq_none_iff]
      exact fun q hq => h q (List.mem_cons_of_mem p hq)
    simp [setA, hp, ih hps]

theorem lookupA_some_mem_keys {l : List (α × β)} {k : α} {v : β}
    (h : lookupA l k = some v) : k ∈ keysA l := by
  induction l with
  | nil => simp [lookupA] at h
  | cons p ps ih =>
    by_cases hp : p.1 = k
    · rw [keysA_cons, hp]
      exact List.mem_cons_self k (keysA ps)
    · rw [lookupA] at h
      rw [if_neg hp] at h
      exact List.mem_cons_of_mem p.1 (ih h)

end AssocLemmas

/-- Two hub states with the same session table and topic index are equal. -/
theorem hubStateExt {a b : HubState} (h1 : a.sessions = b.sessions)
    (h2 : a.topics = b.topics) : a = b := by
  cases a
  cases b
  simp_all

section SetLemmas

variable {α : Type} [DecidableEq α]

theorem mem_insertS (l : List α) (x y : α) : x ∈ insertS l y ↔ x ∈ l ∨ x = y := by
  unfold insertS
  by_cases h : y ∈ l
  · rw [if_pos h]
    constructor
    · exact Or.inl
    · rintro (hx | rfl)
      · exact hx
      · exact h
  · rw [if_neg h]
    simp [List.mem_append]

theorem self_mem_insertS (l : List α) (x : α) : x ∈ insertS l x :=
  (mem_insertS l x x).mpr (Or.inr rfl)

theorem insertS_ne_nil (l : List α) (x : α) : insertS l x ≠ [] := by
  intro he
  have hx := self_mem_insertS l x
  rw [he] at hx
  exact List.not_mem_nil x hx

theorem insertS_idem (l : List α) (x : α) : insertS (insertS l x) x = insertS l x := by
  show (if x ∈ insertS l x then insertS l x else insertS l x ++ [x]) = insertS l x
  rw [if_pos (self_mem_insertS l x)]

theorem mem_eraseS (l : List α) (x y : α) : x ∈ eraseS l y ↔ x ∈ l ∧ x ≠ y := by
  simp [eraseS, List.mem_filter]

theorem not_mem_eraseS (l : List α) (x : α) : x ∉ eraseS l x := by
  simp [mem_eraseS]

theorem eraseS_idem (l : List α) (x : α) : eraseS (eraseS l x) x = eraseS l x := by
  simp [eraseS, List.filter_filter]

theorem eraseS_eq_self {l : List α} {x : α} (h : x ∉ l) : eraseS l x = l := by
  rw [eraseS, List.filter_eq_self]
  intro a ha
  have hne : ¬ a = x := fun he => h (he ▸ ha)
  simp [hne]

end SetLemmas

/-- The topic index after `addSubscription`: the topic entry (created
empty when absent) has the connection inserted. -/
theorem addSubscription_topics (st : HubState) (ws : Nat) (t : String) :
    (addSubscription st ws t).topics =
      setA st.topics t (insertS ((lookupA st.topics t).getD []) ws) := by
  unfold addSubscription
  cases h : lookupA st.topics t with
  | none => simp [h, lookupA_setA_self, setA_setA]
  | some subs => simp [h]

/-- The session table after `addSubscription`: the topic is added to the
session record when one is present. -/
theorem addSubscription_sessions (st : HubState) (ws : Nat) (t : String) :
    (addSubscription st ws t).sessions =
      match lookupA st.sessions ws with
      | some s => setA st.sessions ws { s with subscribedTopics := insertS s.subscribedTopics t }
      | none => st.sessions := rfl

/-- The topic index after `removeSubscription`. -/
theorem removeSubscription_topics (st : HubState) (ws : Nat) (t : String) :
    (removeSubscription st ws t).topics =
      match lookupA st.topics t with
      | some subs =>
        if (eraseS subs ws).length = 0 then eraseA st.topics t
        else setA st.topics t (eraseS subs ws)
      | none => st.topics := rfl

/-- The session table after `removeSubscription`. -/
theorem removeSubscription_sessions (st : HubState) (ws : Nat) (t : String) :
    (removeSubscription st ws t).sessions =
      match lookupA st.sessions ws with
      | some s => setA st.sessions ws { s with subscribedTopics := eraseS s.subscribedTopics t }
      | none => st.sessions := rfl

/-- A concrete room: connections 0 and 1 subscribed to topic `t`,
connection 2 open but not subscribed. -/
def exampleState : HubState :=
  { sessions := [(0, ⟨["t"], true, false, some 10⟩), (1, ⟨["t"], true, false, some 11⟩),
                 (2, ⟨[], true, false, some 12⟩)],
    topics := [("t", [0, 1])] }

/-- A concrete publish frame on topic `t` with an extra payload field. -/
def examplePublish : Json :=
  .obj [("type", .str "publish"), ("topic", .str "t"), ("offer", .str "sdp-blob")]

/-- A concrete room for the lenient variant's falsy-topic guard:
connections 0 and 1 are both subscribed to the empty-named topic
(reachable, since both routers accept "" as a topic-name string and
`addSubscription` creates its entry). -/
def emptyTopicState : HubState :=
  { sessions := [(0, ⟨[""], true, false, some 10⟩), (1, ⟨[""], true, false, some 11⟩)],
    topics := [("", [0, 1])] }

/-- A concrete publish frame on the empty-named topic. -/
def emptyTopicPublish : Json :=
  .obj [("type", .str "publish"), ("topic", .str ""), ("offer", .str "sdp-blob")]

/-- C1 counterexample: connections 0 and 1 (the claim's A and B) are in
the empty-named topic's subscriber set, yet the lenient variant's
`if (!message.topic) return` guard drops the publish before the lookup
and nobody — A and B included — receives a copy. -/
theorem publishV1_empty_topic_dropped :
    lookupA emptyTopicState.topics "" = some [0, 1] ∧
    emptyTopicPublish.getField "topic" = some (.str "") ∧
    handlePublishV1 emptyTopicState emptyTopicPublish = [] :=
  ⟨rfl, rfl, rfl⟩

/-- C1 amended: a publish on topic t reaches every member of t's
subscriber set (in particular subscribed sessions a and b), never reaches
a session c outside the set, and every delivered copy is the published
message extended with a `clients` field holding the size of the
subscriber set at publish time — unconditionally in the hardened
variant, and for every non-empty topic name in the lenient variant,
whose falsy-topic guard silently drops a publish on the empty topic
name. -/
theorem publish_fanout_delivers_with_clients (st : HubState) (msg : Json) (t : String)
    (subs : List Nat) (a b c : Nat)
    (htopic : msg.getField "topic" = some (.str t))
    (hsubs : lookupA st.topics t = some subs)
    (ha : a ∈ subs) (hb : b ∈ subs) (hc : c ∉ subs) :
    ((a, msg.setField "clients" (.num subs.length)) ∈ handlePublish st msg) ∧
    ((b, msg.setField "clients" (.num subs.length)) ∈ handlePublish st msg) ∧
    (∀ m, (c, m) ∉ handlePublish st msg) ∧
    (∀ r m, (r, m) ∈ handlePublish st msg →
      m = msg.setField "clients" (.num subs.length)) ∧
    (t ≠ "" → handlePublishV1 st msg = handlePublish st msg) ∧
    (t = "" → handlePublishV1 st msg = []) := by
  have hlen : ¬ subs.length = 0 := by
    intro h0
    rw [List.length_eq_zero] at h0
    rw [h0] at ha
    exact List.not_mem_nil a ha
  have hred : handlePublish st msg =
      subs.map (fun r => (r, msg.setField "clients" (.num subs.length))) := by
    simp only [handlePublish, htopic, hsubs]
    rw [if_neg hlen]
  refine ⟨?_, ?_, ?_, ?_, ?_, ?_⟩
  · rw [hred]
    exact List.mem_map.mpr ⟨a, ha, rfl⟩
  · rw [hred]
    exact List.mem_map.mpr ⟨b, hb, rfl⟩
  · intro m hm
    rw [hred] at hm
    obtain ⟨r, hr, heq⟩ := List.mem_map.mp hm
    have : r = c := congrArg Prod.fst heq
    exact hc (this ▸ hr)
  · intro r m hm
    rw [hred] at hm
    obtain ⟨q, _, heq⟩ := List.mem_map.mp hm
    exact (congrArg Prod.snd heq).symm
  · intro hne
    simp only [handlePublishV1, handlePublish, htopic]
    rw [if_neg hne]
  · intro he
    subst he
    simp only [handlePublishV1, htopic]
    rw [if_true]

/-- C1 witness: in the concrete room, a publish on the non-empty topic t
is delivered to 0 and 1 with `clients: 2` and never to 2, identically
through both variants' publish handlers. -/
theorem publish_fanout_delivers_with_clients_witness :
    ((0, examplePublish.setField "clients" (.num 2)) ∈ handlePublish exampleState examplePublish) ∧
    ((1, examplePublish.setField "clients" (.num 2)) ∈ handlePublish exampleState examplePublish) ∧
    (∀ m, (2, m) ∉ handlePublish exampleState examplePublish) ∧
    (∀ r m, (r, m) ∈ handlePublish exampleState examplePublish →
      m = examplePublish.setField "clients" (.num 2)) ∧
    ("t" ≠ "" →
      handlePublishV1 exampleState examplePublish = handlePublish exampleState examplePublish) ∧
    ("t" = "" → handlePublishV1 exampleState examplePublish = []) :=
  publish_fanout_delivers_with_clients exampleState examplePublish "t" [0, 1] 0 1 2
    rfl rfl (by decide) (by decide) (by decide)

/-- A concrete room in which the publisher itself is subscribed: the
single connection 0 is subscribed to topic t. -/
def selfPubState : HubState :=
  { sessions := [(0, ⟨["t"], true, false, some 10⟩)], topics := [("t", [0])] }

/-- C6 counterexample: connection 0 is subscribed to t and publishes on
t; the fan-out delivers the message back to 0 itself, so the publishing
client is among the recipients of its own publish. -/
theorem publisher_receives_own_publish :
    (0, examplePublish.setField "clients" (.num 1)) ∈
      (handleMessage selfPubState 0 examplePublish).2 := by
  rw [show (handleMessage selfPubState 0 examplePublish).2 =
      [(0, examplePublish.setField "clients" (.num 1))] from rfl]
  exact List.mem_singleton.mpr rfl

/-- C6 amended: a publish received from a client on topic t is fanned out
to every client in t's subscriber set — the fan-out does not depend on
the sender, so the publishing client, when subscribed to t, receives its
own publish too. This holds unconditionally in the hardened variant, and
in the lenient variant for every non-empty topic name; the lenient
variant's falsy-topic guard silently drops a publish on the empty topic
name. -/
theorem publish_fanout_includes_publisher (st : HubState) (ws : Nat) (msg : Json)
    (t : String) (subs : List Nat) (s : SessionData)
    (hs : lookupA st.sessions ws = some s) (hq : s.quit = false)
    (hty : msg.getType = some "publish")
    (htopic : msg.getField "topic" = some (.str t))
    (hsubs : lookupA st.topics t = some subs) (hne : subs ≠ []) :
    (handleMessage st ws msg).2 =
      subs.map (fun r => (r, msg.setField "clients" (.num subs.length))) ∧
    (ws ∈ subs →
      (ws, msg.setField "clients" (.num subs.length)) ∈ (handleMessage st ws msg).2) ∧
    (t ≠ "" → handlePublishV1 st msg =
      subs.map (fun r => (r, msg.setField "clients" (.num subs.length)))) ∧
    (t = "" → handlePublishV1 st msg = []) := by
  have hlen : ¬ subs.length = 0 := by
    intro h0
    rw [List.length_eq_zero] at h0
    exact hne h0
  have hpub : handlePublish st msg =
      subs.map (fun r => (r, msg.setField "clients" (.num subs.length))) := by
    simp only [handlePublish, htopic, hsubs]
    rw [if_neg hlen]
  have hred : (handleMessage st ws msg).2 =
      subs.map (fun r => (r, msg.setField "clients" (.num subs.length))) := by
    simp [handleMessage, hs, hq, hty, hpub]
  refine ⟨hred, fun hmem => ?_, fun hne2 => ?_, fun he => ?_⟩
  · rw [hred]
    exact List.mem_map.mpr ⟨ws, hmem, rfl⟩
  · rw [← hpub]
    simp only [handlePublishV1, handlePublish, htopic]
    rw [if_neg hne2]
  · subst he
    simp only [handlePublishV1, htopic]
    rw [if_true]

/-- C6 amended witness: connection 0, subscribed to the non-empty topic
t, receives its own publish annotated with `clients: 1`, through either
variant's publish handler. -/
theorem publish_fanout_includes_publisher_witness :
    (handleMessage selfPubState 0 examplePublish).2 =
      [0].map (fun r => (r, examplePublish.setField "clients" (.num 1))) ∧
    (0 ∈ [0] →
      (0, examplePublish.setField "clients" (.num 1)) ∈
        (handleMessage selfPubState 0 examplePublish).2) ∧
    ("t" ≠ "" → handlePublishV1 selfPubState examplePublish =
      [0].map (fun r => (r, examplePublish.setField "clients" (.num 1)))) ∧
    ("t" = "" → handlePublishV1 selfPubState examplePublish = []) :=
  publish_fanout_includes_publisher selfPubState 0 examplePublish "t" [0]
    ⟨["t"], true, false, some 10⟩ rfl rfl rfl rfl rfl (by decide)

/-- C8: an inbound frame that is not well-formed JSON (`data = none`), or
whose parsed value is not an object, or whose `type` field is missing or
not one of the recognized command strings, yields no command from the
router: the message handler sends nothing and leaves the hub state
unchanged. -/
theorem malformed_frame_discarded (st : HubState) (ws : Nat) (data : Option Json)
    (h : data = none ∨ ∃ j, data = some j ∧
      ((∀ fs, j ≠ Json.obj fs) ∨
       j.getField "type" = none ∨
       ∃ v, j.getField "type" = some v ∧ ∀ u, v = Json.str u → u ∉ validTypes)) :
    parseMessage data = none ∧ onMessage st ws data = (st, []) := by
  have hp : parseMessage data = none := by
    rcases h with rfl | ⟨j, rfl, hj⟩
    · rfl
    · have hv : isValidMessage j = false := by
        rcases hj with hobj | hty | ⟨v, hv, hnv⟩
        · cases j with
          | obj fs => exact absurd rfl (hobj fs)
          | null => rfl
          | bool b => rfl
          | num n => rfl
          | str s => rfl
          | arr xs => rfl
        · cases j with
          | obj fs =>
            have : lookupA fs "type" = none := hty
            simp [isValidMessage, this]
          | null => rfl
          | bool b => rfl
          | num n => rfl
          | str s => rfl
          | arr xs => rfl
        · cases j with
          | obj fs =>
            have hl : lookupA fs "type" = some v := hv
            cases v with
            | str u =>
              have hu : u ∉ validTypes := hnv u rfl
              simp [isValidMessage, hl, hu]
            | null => simp [isValidMessage, hl]
            | bool b => simp [isValidMessage, hl]
            | num n => simp [isValidMessage, hl]
            | arr xs => simp [isValidMessage, hl]
            | obj gs => simp [isValidMessage, hl]
          | null => rfl
          | bool b => rfl
          | num n => rfl
          | str s => rfl
          | arr xs => rfl
      simp [parseMessage, hv]
  refine ⟨hp, ?_⟩
  simp [onMessage, hp]

/-- C8 witness: a frame that fails `JSON.parse` is discarded with no reply
and no state change in the concrete room. -/
theorem malformed_frame_discarded_witness :
    parseMessage none = none ∧ onMessage exampleState 0 none = (exampleState, []) :=
  malformed_frame_discarded exampleState 0 none (Or.inl rfl)

/-- A concrete transport on which the raw `ws.send` throws for connection
0 only, while every connection reports readyState open. -/
def failTransport : Transport :=
  { readyState := fun _ => wsReadyStateOpen, sendFails := fun ws => ws = 0 }

/-- C7 counterexample: with subscribers 0 and 1 and the raw send throwing
on 0, the hardened `send` still delivers to 1 (no blocking) but closes no
connection at all — the failing subscriber's session is not torn down,
contradicting the claim that a delivery failure triggers its teardown. -/
theorem sendV2_failure_no_teardown :
    fanoutWith sendV2 failTransport [0, 1] examplePublish =
      ([(1, examplePublish)], []) := rfl

/-- C7 amended: in both variants a delivery failure on one subscriber
neither blocks nor fails delivery to the remaining subscribers; the
lenient variant's `send` additionally closes exactly the failing
subscribers' connections (feeding them into teardown via the close
handler), while the hardened variant's `send` only logs the failure and
closes nothing, so no teardown is triggered there. -/
theorem send_failure_isolation (tr : Transport) (receivers : List Nat) (msg : Json) :
    (fanoutWith sendV1 tr receivers msg).1 =
      (receivers.filter (fun r =>
        (tr.readyState r = wsReadyStateConnecting ∨ tr.readyState r = wsReadyStateOpen) ∧
          tr.sendFails r = false)).map (fun r => (r, msg)) ∧
    (fanoutWith sendV1 tr receivers msg).2 =
      receivers.filter (fun r =>
        ¬ (tr.readyState r = wsReadyStateConnecting ∨ tr.readyState r = wsReadyStateOpen) ∨
          tr.sendFails r = true) ∧
    (fanoutWith sendV2 tr receivers msg).1 =
      (receivers.filter (fun r => tr.sendFails r = false)).map (fun r => (r, msg)) ∧
    (fanoutWith sendV2 tr receivers msg).2 = [] := by
  induction receivers with
  | nil => exact ⟨rfl, rfl, rfl, rfl⟩
  | cons r rs ih =>
    obtain ⟨ih1, ih2, ih3, ih4⟩ := ih
    by_cases hrs : tr.readyState r = wsReadyStateConnecting ∨ tr.readyState r = wsReadyStateOpen
    · have hnn : ¬ (¬ tr.readyState r = wsReadyStateConnecting ∧
          ¬ tr.readyState r = wsReadyStateOpen) := fun hc => hrs.elim hc.1 hc.2
      by_cases hf : tr.sendFails r = true
      · refine ⟨?_, ?_, ?_, ?_⟩ <;>
          simp [fanoutWith, sendV1, sendV2, List.filter_cons, hrs, hnn, hf, ih1, ih2, ih3, ih4]
      · refine ⟨?_, ?_, ?_, ?_⟩ <;>
          simp [fanoutWith, sendV1, sendV2, List.filter_cons, hrs, hnn, hf, ih1, ih2, ih3, ih4]
    · have hna : ¬ tr.readyState r = wsReadyStateConnecting := fun h => hrs (Or.inl h)
      have hnb : ¬ tr.readyState r = wsReadyStateOpen := fun h => hrs (Or.inr h)
      by_cases hf : tr.sendFails r = true
      · refine ⟨?_, ?_, ?_, ?_⟩ <;>
          simp [fanoutWith, sendV1, sendV2, List.filter_cons, hrs, hna, hnb, hf, ih1, ih2, ih3, ih4]
      · refine ⟨?_, ?_, ?_, ?_⟩ <;>
          simp [fanoutWith, sendV1, sendV2, List.filter_cons, hrs, hna, hnb, hf, ih1, ih2, ih3, ih4]

/-- C9: subscribe and unsubscribe are idempotent: a second
`addSubscription` for the same session and topic changes nothing, a
second `removeSubscription` changes nothing, and a `removeSubscription`
for a topic the session is not subscribed to (and whose entry, if any, is
a nonempty set not containing the session) leaves the hub state exactly
unchanged. -/
theorem subscribe_unsubscribe_idempotent (st : HubState) (ws : Nat) (t : String)
    (hnd : NodupA st.topics) :
    addSubscription (addSubscription st ws t) ws t = addSubscription st ws t ∧
    removeSubscription (removeSubscription st ws t) ws t = removeSubscription st ws t ∧
    ((lookupA st.topics t = none ∨
      ∃ subs, lookupA st.topics t = some subs ∧ ws ∉ subs ∧ subs ≠ []) →
     (∀ s, lookupA st.sessions ws = some s → t ∉ s.subscribedTopics) →
     removeSubscription st ws t = st) := by
  refine ⟨?_, ?_, ?_⟩
  · cases hws : lookupA st.sessions ws with
    | none =>
      cases hts : lookupA st.topics t with
      | none =>
        apply hubStateExt <;>
          simp [addSubscription, hws, hts, lookupA_setA_self, setA_setA, insertS_idem]
      | some subs =>
        apply hubStateExt <;>
          simp [addSubscription, hws, hts, lookupA_setA_self, setA_setA, insertS_idem]
    | some s =>
      cases hts : lookupA st.topics t with
      | none =>
        apply hubStateExt <;>
          simp [addSubscription, hws, hts, lookupA_setA_self, setA_setA, insertS_idem]
      | some subs =>
        apply hubStateExt <;>
          simp [addSubscription, hws, hts, lookupA_setA_self, setA_setA, insertS_idem]
  · cases hws : lookupA st.sessions ws with
    | none =>
      cases hts : lookupA st.topics t with
      | none =>
        apply hubStateExt <;>
          simp [removeSubscription, hws, hts, lookupA_setA_self, setA_setA, eraseS_idem]
      | some subs =>
        by_cases hz : (eraseS subs ws).length = 0
        · apply hubStateExt <;>
            simp [removeSubscription, hws, hts, hz, lookupA_eraseA_self st.topics t hnd]
        · apply hubStateExt <;>
            simp [removeSubscription, hws, hts, hz, lookupA_setA_self, setA_setA, eraseS_idem]
    | some s =>
      cases hts : lookupA st.topics t with
      | none =>
        apply hubStateExt <;>
          simp [removeSubscription, hws, hts, lookupA_setA_self, setA_setA, eraseS_idem]
      | some subs =>
        by_cases hz : (eraseS subs ws).length = 0
        · apply hubStateExt <;>
            simp [removeSubscription, hws, hts, hz, lookupA_eraseA_self st.topics t hnd,
              lookupA_setA_self, setA_setA, eraseS_idem]
        · apply hubStateExt <;>
            simp [removeSubscription, hws, hts, hz, lookupA_setA_self, setA_setA, eraseS_idem]
  · intro h3 h4
    have hsess : (removeSubscription st ws t).sessions = st.sessions := by
      rw [removeSubscription_sessions]
      cases hws : lookupA st.sessions ws with
      | none => rfl
      | some s =>
        have hts2 : t ∉ s.subscribedTopics := h4 s hws
        show setA st.sessions ws { s with subscribedTopics := eraseS s.subscribedTopics t } =
          st.sessions
        rw [eraseS_eq_self hts2]
        exact setA_lookupA_eq _ _ _ hws
    have htop : (removeSubscription st ws t).topics = st.topics := by
      rw [removeSubscription_topics]
      rcases h3 with h3 | ⟨subs, h3, hmem, hne⟩
      · rw [h3]
      · have hz : ¬ (eraseS subs ws).length = 0 := by
          rw [eraseS_eq_self hmem, List.length_eq_zero]
          exact hne
        simp only [h3]
        rw [if_neg hz, eraseS_eq_self hmem]
        exact setA_lookupA_eq _ _ _ h3
    exact hubStateExt hsess htop

/-- C9 witness: in the concrete room the three idempotence properties
hold for connection 2 and topic t. -/
theorem subscribe_unsubscribe_idempotent_witness :
    addSubscription (addSubscription exampleState 2 "t") 2 "t" =
      addSubscription exampleState 2 "t" ∧
    removeSubscription (removeSubscription exampleState 2 "t") 2 "t" =
      removeSubscription exampleState 2 "t" ∧
    ((lookupA exampleState.topics "t" = none ∨
      ∃ subs, lookupA exampleState.topics "t" = some subs ∧ 2 ∉ subs ∧ subs ≠ []) →
     (∀ s, lookupA exampleState.sessions 2 = some s → "t" ∉ s.subscribedTopics) →
     removeSubscription exampleState 2 "t" = exampleState) :=
  subscribe_unsubscribe_idempotent exampleState 2 "t" (by unfold NodupA keysA; decide)

/-- The topic index of `removeSubscription` when the topic is absent. -/
theorem removeSubscription_topics_of_none (st : HubState) (ws : Nat) (t : String)
    (h : lookupA st.topics t = none) :
    (removeSubscription st ws t).topics = st.topics := by
  simp only [removeSubscription_topics, h]

/-- The topic index of `removeSubscription` when the topic is present. -/
theorem removeSubscription_topics_of_some (st : HubState) (ws : Nat) (t : String)
    (subs : List Nat) (h : lookupA st.topics t = some subs) :
    (removeSubscription st ws t).topics =
      if (eraseS subs ws).length = 0 then eraseA st.topics t
      else setA st.topics t (eraseS subs ws) := by
  simp only [removeSubscription_topics, h]

/-- The session table of `removeSubscription` when the session is present. -/
theorem removeSubscription_sessions_of_some (st : HubState) (ws : Nat) (t : String)
    (s : SessionData) (h : lookupA st.sessions ws = some s) :
    (removeSubscription st ws t).sessions =
      setA st.sessions ws { s with subscribedTopics := eraseS s.subscribedTopics t } := by
  simp only [removeSubscription_sessions, h]

/-- The session table of `removeSubscription` when the session is absent. -/
theorem removeSubscription_sessions_of_none (st : HubState) (ws : Nat) (t : String)
    (h : lookupA st.sessions ws = none) :
    (removeSubscription st ws t).sessions = st.sessions := by
  simp only [removeSubscription_sessions, h]

/-- `removeSubscription` keeps the topic index keys duplicate-free. -/
theorem removeSubscription_topics_nodup (st : HubState) (ws : Nat) (t : String)
    (h : NodupA st.topics) : NodupA (removeSubscription st ws t).topics := by
  cases hts : lookupA st.topics t with
  | none => rw [removeSubscription_topics_of_none st ws t hts]; exact h
  | some subs =>
    rw [removeSubscription_topics_of_some st ws t subs hts]
    by_cases hz : (eraseS subs ws).length = 0
    · rw [if_pos hz]; exact NodupA_eraseA t h
    · rw [if_neg hz]; exact NodupA_setA t _ h

/-- `removeSubscription` keeps the session table keys duplicate-free. -/
theorem removeSubscription_sessions_nodup (st : HubState) (ws : Nat) (t : String)
    (h : NodupA st.sessions) : NodupA (removeSubscription st ws t).sessions := by
  cases hws : lookupA st.sessions ws with
  | none => rw [removeSubscription_sessions_of_none st ws t hws]; exact h
  | some s =>
    rw [removeSubscription_sessions_of_some st ws t s hws]
    exact NodupA_setA ws _ h

/-- Immediately after `removeSubscription`, the topic's entry (if still
present) is a nonempty set not containing the removed connection. -/
theorem removeSubscription_clears (st : HubState) (ws : Nat) (t : String)
    (hnd : NodupA st.topics) :
    ∀ subs, lookupA (removeSubscription st ws t).topics t = some subs →
      ws ∉ subs ∧ subs ≠ [] := by
  intro subs2 h2
  cases hts : lookupA st.topics t with
  | none =>
    rw [removeSubscription_topics_of_none st ws t hts, hts] at h2
    exact Option.noConfusion h2
  | some subs =>
    rw [removeSubscription_topics_of_some st ws t subs hts] at h2
    by_cases hz : (eraseS subs ws).length = 0
    · rw [if_pos hz, lookupA_eraseA_self st.topics t hnd] at h2
      exact Option.noConfusion h2
    · rw [if_neg hz, lookupA_setA_self] at h2
      injection h2 with h2
      constructor
      · rw [← h2]; exact not_mem_eraseS subs ws
      · rw [← h2]
        intro hnil
        exact hz (by rw [hnil]; rfl)

/-- `removeSubscription` on one topic does not touch other topics. -/
theorem removeSubscription_topics_lookup_ne (st : HubState) (ws : Nat) (t q : String)
    (hq : q ≠ t) :
    lookupA (removeSubscription st ws t).topics q = lookupA st.topics q := by
  cases hts : lookupA st.topics t with
  | none => rw [removeSubscription_topics_of_none st ws t hts]
  | some subs =>
    rw [removeSubscription_topics_of_some st ws t subs hts]
    by_cases hz : (eraseS subs ws).length = 0
    · rw [if_pos hz]; exact lookupA_eraseA_ne _ _ _ hq
    · rw [if_neg hz]; exact lookupA_setA_ne _ _ _ _ hq

/-- `removeSubscription` keeps the key set of the session table. -/
theorem removeSubscription_sessions_keys (st : HubState) (ws : Nat) (t : String) :
    keysA (removeSubscription st ws t).sessions = keysA st.sessions := by
  cases hws : lookupA st.sessions ws with
  | none => rw [removeSubscription_sessions_of_none st ws t hws]
  | some s =>
    rw [removeSubscription_sessions_of_some st ws t s hws, keysA_setA,
      if_pos (lookupA_some_mem_keys hws)]

/-- The cleared-topic property survives removing any further topic. -/
theorem removeSubscription_preserves_clear (st : HubState) (ws : Nat) (t q : String)
    (hnd : NodupA st.topics)
    (hp : ∀ subs, lookupA st.topics q = some subs → ws ∉ subs ∧ subs ≠ []) :
    ∀ subs, lookupA (removeSubscription st ws t).topics q = some subs →
      ws ∉ subs ∧ subs ≠ [] := by
  by_cases hqt : q = t
  · subst hqt
    exact removeSubscription_clears st ws q hnd
  · intro subs h
    rw [removeSubscription_topics_lookup_ne st ws t q hqt] at h
    exact hp subs h

/-- Both key sets stay duplicate-free along the teardown fold. -/
theorem foldRemove_nodup (ws : Nat) (ts : List String) (st : HubState)
    (hT : NodupA st.topics) (hS : NodupA st.sessions) :
    NodupA ((ts.foldl (fun acc t => removeSubscription acc ws t) st).topics) ∧
    NodupA ((ts.foldl (fun acc t => removeSubscription acc ws t) st).sessions) := by
  induction ts generalizing st with
  | nil => exact ⟨hT, hS⟩
  | cons t ts ih =>
    exact ih (removeSubscription st ws t) (removeSubscription_topics_nodup st ws t hT)
      (removeSubscription_sessions_nodup st ws t hS)

/-- The cleared-topic property survives the whole teardown fold. -/
theorem foldRemove_preserves_clear (ws : Nat) (q : String) (ts : List String)
    (st : HubState) (hnd : NodupA st.topics)
    (hp : ∀ subs, lookupA st.topics q = some subs → ws ∉ subs ∧ subs ≠ []) :
    ∀ subs,
      lookupA ((ts.foldl (fun acc t => removeSubscription acc ws t) st).topics) q = some subs →
        ws ∉ subs ∧ subs ≠ [] := by
  induction ts generalizing st with
  | nil => exact hp
  | cons t ts ih =>
    exact ih (removeSubscription st ws t) (removeSubscription_topics_nodup st ws t hnd)
      (removeSubscription_preserves_clear st ws t q hnd hp)

/-- After folding `removeSubscription` over a topic list, every listed
topic either lost its entry or retains a nonempty set without the
connection. -/
theorem foldRemove_clears (ws : Nat) (ts : List String) (st : HubState)
    (hnd : NodupA st.topics) :
    ∀ t ∈ ts, ∀ subs,
      lookupA ((ts.foldl (fun acc t => removeSubscription acc ws t) st).topics) t = some subs →
        ws ∉ subs ∧ subs ≠ [] := by
  induction ts generalizing st with
  | nil => intro t ht; cases ht
  | cons t ts ih =>
    intro q hq subs h
    have hnd1 : NodupA (removeSubscription st ws t).topics :=
      removeSubscription_topics_nodup st ws t hnd
    rcases List.mem_cons.mp hq with rfl | hq2
    · exact foldRemove_preserves_clear ws q ts (removeSubscription st ws q) hnd1
        (removeSubscription_clears st ws q hnd) subs h
    · exact ih (removeSubscription st ws t) hnd1 q hq2 subs h

/-- The state built by the body of `closeSession` before the session
table entry is deleted: quit is latched, the timer handle dropped, and
the session removed from each of its topics. -/
def teardownCore (st : HubState) (ws : Nat) (s : SessionData) : HubState :=
  s.subscribedTopics.foldl (fun acc t => removeSubscription acc ws t)
    { st with sessions := setA st.sessions ws { s with quit := true, intervalId := none } }

/-- `closeSession` on a live session, phrased through `teardownCore`. -/
theorem closeSession_eq (st : HubState) (ws : Nat) (s : SessionData)
    (h : lookupA st.sessions ws = some s) :
    closeSession st ws =
      ({ teardownCore st ws s with sessions := eraseA (teardownCore st ws s).sessions ws },
       ⟨true, s.intervalId.isSome, s.subscribedTopics, true⟩) := by
  simp only [closeSession, teardownCore, h]

/-- `closeSession` on an absent session is a no-op with no effects. -/
theorem closeSession_of_none (st : HubState) (ws : Nat)
    (h : lookupA st.sessions ws = none) :
    closeSession st ws = (st, ⟨false, false, [], false⟩) := by
  simp only [closeSession, h]

/-- C2: teardown is idempotent. Given a registered session, the first
`closeSession` reports that it latched quit, cancelled the heartbeat
timer exactly when one was armed, removed the connection from each of its
subscribed topics (deleting any entry left empty) and closed the
connection; afterwards the session is gone from the table, and a second
`closeSession` changes nothing and performs none of those effects again. -/
theorem teardown_idempotent (st : HubState) (ws : Nat) (s : SessionData)
    (hndS : NodupA st.sessions) (hndT : NodupA st.topics)
    (hs : lookupA st.sessions ws = some s) :
    (closeSession st ws).2 = ⟨true, s.intervalId.isSome, s.subscribedTopics, true⟩ ∧
    lookupA (closeSession st ws).1.sessions ws = none ∧
    (∀ t ∈ s.subscribedTopics, ∀ subs,
      lookupA (closeSession st ws).1.topics t = some subs → ws ∉ subs ∧ subs ≠ []) ∧
    closeSession (closeSession st ws).1 ws = ((closeSession st ws).1, ⟨false, false, [], false⟩) := by
  have hTc := foldRemove_nodup ws s.subscribedTopics
    { st with sessions := setA st.sessions ws { s with quit := true, intervalId := none } }
    hndT (NodupA_setA ws _ hndS)
  rw [closeSession_eq st ws s hs]
  refine ⟨rfl, ?_, ?_, ?_⟩
  · exact lookupA_eraseA_self _ ws hTc.2
  · intro t ht subs hsub
    exact foldRemove_clears ws s.subscribedTopics
      { st with sessions := setA st.sessions ws { s with quit := true, intervalId := none } }
      hndT t ht subs hsub
  · exact closeSession_of_none _ ws (lookupA_eraseA_self _ ws hTc.2)

/-- C2 witness: tearing down connection 0 of the concrete room reports
the full first-call effects, removes the session and prunes topic t, and
a second teardown is a no-op with no effects. -/
theorem teardown_idempotent_witness :
    (closeSession exampleState 0).2 = ⟨true, true, ["t"], true⟩ ∧
    lookupA (closeSession exampleState 0).1.sessions 0 = none ∧
    (∀ t ∈ ["t"], ∀ subs,
      lookupA (closeSession exampleState 0).1.topics t = some subs → 0 ∉ subs ∧ subs ≠ []) ∧
    closeSession (closeSession exampleState 0).1 0 =
      ((closeSession exampleState 0).1, ⟨false, false, [], false⟩) :=
  teardown_idempotent exampleState 0 ⟨["t"], true, false, some 10⟩
    (by unfold NodupA keysA; decide) (by unfold NodupA keysA; decide) rfl

/-- The session table keys stay duplicate-free along the teardown fold. -/
theorem foldRemove_sessions_nodup (ws : Nat) (ts : List String) (st : HubState)
    (hS : NodupA st.sessions) :
    NodupA ((ts.foldl (fun acc t => removeSubscription acc ws t) st).sessions) := by
  induction ts generalizing st with
  | nil => exact hS
  | cons t ts ih =>
    exact ih (removeSubscription st ws t) (removeSubscription_sessions_nodup st ws t hS)

/-- After `closeSession` the session is gone from the table. -/
theorem closeSession_lookup_none (st : HubState) (ws : Nat) (s : SessionData)
    (hndS : NodupA st.sessions) (hs : lookupA st.sessions ws = some s) :
    lookupA (closeSession st ws).1.sessions ws = none := by
  rw [closeSession_eq st ws s hs]
  exact lookupA_eraseA_self (teardownCore st ws s).sessions ws
    (foldRemove_sessions_nodup ws s.subscribedTopics
      { st with sessions := setA st.sessions ws { s with quit := true, intervalId := none } }
      (NodupA_setA ws _ hndS))

/-- A heartbeat tick that observes the liveness flag true: it is cleared
and a ping probe is sent; no eviction, no interval cancellation. -/
theorem heartbeatTick_alive (st : HubState) (ws : Nat) (s : SessionData)
    (hs : lookupA st.sessions ws = some s) (ha : s.alive = true) :
    heartbeatTick st ws =
      ({ st with sessions := setA st.sessions ws { s with alive := false } },
       [(ws, pingFrame)], false) := by
  simp [heartbeatTick, hs, ha]

/-- A heartbeat tick that observes the liveness flag false: teardown is
triggered and the interval cancelled. -/
theorem heartbeatTick_dead (st : HubState) (ws : Nat) (s : SessionData)
    (hs : lookupA st.sessions ws = some s) (ha : s.alive = false) :
    heartbeatTick st ws = ((closeSession st ws).1, [], true) := by
  simp [heartbeatTick, hs, ha]

/-- C3: a session that answers no ping with a pong is evicted after
exactly one missed heartbeat interval. The first tick that observes the
liveness flag true clears it and sends a ping without evicting; the next
tick, still observing it false, tears the session down and cancels the
interval; a pong received between the two ticks re-arms the flag and the
following tick probes again instead of evicting. -/
theorem heartbeat_eviction_after_one_missed_interval (st : HubState) (ws : Nat)
    (s : SessionData) (hndS : NodupA st.sessions)
    (hs : lookupA st.sessions ws = some s) (ha : s.alive = true) (hq : s.quit = false) :
    (heartbeatTick st ws).2.1 = [(ws, pingFrame)] ∧
    (heartbeatTick st ws).2.2 = false ∧
    lookupA (heartbeatTick st ws).1.sessions ws = some { s with alive := false } ∧
    (heartbeatTick (heartbeatTick st ws).1 ws).2.2 = true ∧
    lookupA (heartbeatTick (heartbeatTick st ws).1 ws).1.sessions ws = none ∧
    (heartbeatTick (handleMessage (heartbeatTick st ws).1 ws pongFrame).1 ws).2.2 = false ∧
    lookupA (heartbeatTick (handleMessage (heartbeatTick st ws).1 ws pongFrame).1 ws).1.sessions
      ws = some { s with alive := false } := by
  have h1 := heartbeatTick_alive st ws s hs ha
  have hl1 : lookupA (heartbeatTick st ws).1.sessions ws = some { s with alive := false } := by
    rw [h1]
    exact lookupA_setA_self st.sessions ws _
  have hnd1 : NodupA (heartbeatTick st ws).1.sessions := by
    rw [h1]
    exact NodupA_setA ws _ hndS
  have h2 := heartbeatTick_dead (heartbeatTick st ws).1 ws { s with alive := false } hl1 rfl
  have hty : Json.getType pongFrame = some "pong" := rfl
  have h3 : handleMessage (heartbeatTick st ws).1 ws pongFrame =
      ({ (heartbeatTick st ws).1 with
        sessions := setA (heartbeatTick st ws).1.sessions ws { s with alive := true } }, []) := by
    simp [handleMessage, hl1, hq, hty]
  have hl3 : lookupA (handleMessage (heartbeatTick st ws).1 ws pongFrame).1.sessions ws =
      some { s with alive := true } := by
    rw [h3]
    exact lookupA_setA_self _ ws _
  have h4 := heartbeatTick_alive (handleMessage (heartbeatTick st ws).1 ws pongFrame).1 ws
    { s with alive := true } hl3 rfl
  refine ⟨by rw [h1], by rw [h1], hl1, by rw [h2], ?_, by rw [h4], ?_⟩
  · rw [h2]
    exact closeSession_lookup_none (heartbeatTick st ws).1 ws { s with alive := false } hnd1 hl1
  · rw [h4]
    exact lookupA_setA_self _ ws _

/-- C3 witness: in the concrete room, connection 0 is probed on the first
tick, evicted on the second silent tick, and kept alive when a pong
arrives in between. -/
theorem heartbeat_eviction_after_one_missed_interval_witness :
    (heartbeatTick exampleState 0).2.1 = [(0, pingFrame)] ∧
    (heartbeatTick exampleState 0).2.2 = false ∧
    lookupA (heartbeatTick exampleState 0).1.sessions 0 = some ⟨["t"], false, false, some 10⟩ ∧
    (heartbeatTick (heartbeatTick exampleState 0).1 0).2.2 = true ∧
    lookupA (heartbeatTick (heartbeatTick exampleState 0).1 0).1.sessions 0 = none ∧
    (heartbeatTick (handleMessage (heartbeatTick exampleState 0).1 0 pongFrame).1 0).2.2 = false ∧
    lookupA (heartbeatTick (handleMessage (heartbeatTick exampleState 0).1 0 pongFrame).1 0).1.sessions
      0 = some ⟨["t"], false, false, some 10⟩ :=
  heartbeat_eviction_after_one_missed_interval exampleState 0 ⟨["t"], true, false, some 10⟩
    (by unfold NodupA keysA; decide) rfl rfl rfl

/-- A successful lookup names an entry of the list. -/
theorem lookupA_mem {α β : Type} [DecidableEq α] {l : List (α × β)} {k : α} {v : β}
    (h : lookupA l k = some v) : (k, v) ∈ l := by
  induction l with
  | nil => exact Option.noConfusion h
  | cons p ps ih =>
    by_cases hp : p.1 = k
    · rw [lookupA, if_pos hp] at h
      injection h with h
      have : p = (k, v) := by
        cases p
        simp_all
      exact this ▸ List.mem_cons_self p ps
    · rw [lookupA, if_neg hp] at h
      exact List.mem_cons_of_mem p (ih h)

/-- `addSubscription` never creates an empty topic entry. -/
theorem addSubscription_nonempty (st : HubState) (ws : Nat) (t : String)
    (h : TopicsNonempty st) : TopicsNonempty (addSubscription st ws t) := by
  intro p hp
  rw [addSubscription_topics] at hp
  cases hts : lookupA st.topics t with
  | some subs =>
    rw [hts] at hp
    rcases mem_setA hp with heq | hpm
    · subst heq
      exact insertS_ne_nil subs ws
    · exact h p hpm
  | none =>
    rw [hts, setA_absent st.topics t _ hts] at hp
    rcases List.mem_append.mp hp with hpm | hpe
    · exact h p hpm
    · rw [List.mem_singleton] at hpe
      subst hpe
      exact insertS_ne_nil [] ws

/-- `removeSubscription` never leaves an empty topic entry behind. -/
theorem removeSubscription_nonempty (st : HubState) (ws : Nat) (t : String)
    (h : TopicsNonempty st) : TopicsNonempty (removeSubscription st ws t) := by
  intro p hp
  cases hts : lookupA st.topics t with
  | none =>
    rw [removeSubscription_topics_of_none st ws t hts] at hp
    exact h p hp
  | some subs =>
    rw [removeSubscription_topics_of_some st ws t subs hts] at hp
    by_cases hz : (eraseS subs ws).length = 0
    · rw [if_pos hz] at hp
      exact h p (mem_of_mem_eraseA hp)
    · rw [if_neg hz] at hp
      rcases mem_setA hp with heq | hpm
      · subst heq
        intro hnil
        exact hz (by rw [show (t, eraseS subs ws).2 = eraseS subs ws from rfl] at hnil; rw [hnil]; rfl)
      · exact h p hpm

/-- `handleSubscribe` preserves the emptiness invariant. -/
theorem handleSubscribe_nonempty (st : HubState) (ws : Nat) (ts : List String)
    (h : TopicsNonempty st) : TopicsNonempty (handleSubscribe st ws ts) := by
  induction ts generalizing st with
  | nil => exact h
  | cons t ts ih => exact ih (addSubscription st ws t) (addSubscription_nonempty st ws t h)

/-- `handleUnsubscribe` (V2) preserves the emptiness invariant. -/
theorem handleUnsubscribeV2_nonempty (st : HubState) (ws : Nat) (ts : List String)
    (h : TopicsNonempty st) : TopicsNonempty (handleUnsubscribeV2 st ws ts) := by
  induction ts generalizing st with
  | nil => exact h
  | cons t ts ih => exact ih (removeSubscription st ws t) (removeSubscription_nonempty st ws t h)

/-- `closeSession` preserves the emptiness invariant. -/
theorem closeSession_nonempty (st : HubState) (ws : Nat)
    (h : TopicsNonempty st) : TopicsNonempty (closeSession st ws).1 := by
  cases hws : lookupA st.sessions ws with
  | none => rw [closeSession_of_none st ws hws]; exact h
  | some s =>
    rw [closeSession_eq st ws s hws]
    show TopicsNonempty (teardownCore st ws s)
    unfold teardownCore
    exact handleUnsubscribeV2_nonempty _ ws s.subscribedTopics h

/-- `handleMessage` preserves the emptiness invariant. -/
theorem handleMessage_nonempty (st : HubState) (ws : Nat) (msg : Json)
    (h : TopicsNonempty st) : TopicsNonempty (handleMessage st ws msg).1 := by
  unfold handleMessage
  split
  · exact h
  · split
    · exact h
    · split
      · exact handleSubscribe_nonempty st ws _ h
      · exact handleUnsubscribeV2_nonempty st ws _ h
      · exact h
      · exact h
      · exact h
      · exact h

/-- `heartbeatTick` preserves the emptiness invariant. -/
theorem heartbeatTick_nonempty (st : HubState) (ws : Nat)
    (h : TopicsNonempty st) : TopicsNonempty (heartbeatTick st ws).1 := by
  unfold heartbeatTick
  split
  · exact h
  · split
    · exact closeSession_nonempty st ws h
    · exact h

/-- C4 counterexample: in the lenient variant, unsubscribing the only
subscriber of topic t leaves an empty entry for t in the topic index
instead of deleting it, violating the emptiness invariant. -/
theorem unsubscribeV1_leaves_empty_topic_entry :
    lookupA (handleUnsubscribeV1 selfPubState 0 ["t"]).topics "t" = some [] ∧
    ("t", ([] : List Nat)) ∈ (handleUnsubscribeV1 selfPubState 0 ["t"]).topics ∧
    ¬ TopicsNonempty (handleUnsubscribeV1 selfPubState 0 ["t"]) := by
  have hmem : ("t", ([] : List Nat)) ∈ (handleUnsubscribeV1 selfPubState 0 ["t"]).topics := by
    rw [show (handleUnsubscribeV1 selfPubState 0 ["t"]).topics =
        [("t", ([] : List Nat))] from rfl]
    exact List.mem_singleton.mpr rfl
  exact ⟨rfl, hmem, fun hc => hc ("t", []) hmem rfl⟩

/-- C4 amended: the emptiness invariant is preserved by subscribe,
publish, teardown, the heartbeat, session acceptance and the hardened
variant's unsubscribe, which deletes a topic entry the moment its last
subscriber is removed; the lenient variant's unsubscribe, however, leaves
the empty entry in place (see the counterexample), pruning it only at
teardown. -/
theorem topics_nonempty_invariant (st : HubState)
    (hnd : NodupA st.topics) (h : TopicsNonempty st) :
    (∀ ws t, TopicsNonempty (addSubscription st ws t)) ∧
    (∀ ws t, TopicsNonempty (removeSubscription st ws t)) ∧
    (∀ ws msg, TopicsNonempty (handleMessage st ws msg).1) ∧
    (∀ ws, TopicsNonempty (closeSession st ws).1) ∧
    (∀ ws tid, TopicsNonempty (handleSession st ws tid)) ∧
    (∀ ws, TopicsNonempty (heartbeatTick st ws).1) ∧
    (∀ ws t subs, lookupA st.topics t = some subs → eraseS subs ws = [] →
      lookupA (removeSubscription st ws t).topics t = none ∧
      ∀ subs2, (t, subs2) ∉ (removeSubscription st ws t).topics) := by
  refine ⟨fun ws t => addSubscription_nonempty st ws t h,
    fun ws t => removeSubscription_nonempty st ws t h,
    fun ws msg => handleMessage_nonempty st ws msg h,
    fun ws => closeSession_nonempty st ws h,
    fun ws tid => h,
    fun ws => heartbeatTick_nonempty st ws h,
    fun ws t subs hts hz => ?_⟩
  have hlen : (eraseS subs ws).length = 0 := by rw [hz]; rfl
  have hnone : lookupA (removeSubscription st ws t).topics t = none := by
    rw [removeSubscription_topics_of_some st ws t subs hts, if_pos hlen]
    exact lookupA_eraseA_self st.topics t hnd
  refine ⟨hnone, fun subs2 hmem => ?_⟩
  exact (lookupA_eq_none_iff _ t).mp hnone (t, subs2) hmem rfl

/-- C4 witness: the amended invariant evaluated at a concrete room; in
particular, unsubscribing the last subscriber of t deletes t's entry. -/
theorem topics_nonempty_invariant_witness :
    TopicsNonempty (addSubscription selfPubState 1 "u") ∧
    TopicsNonempty (removeSubscription selfPubState 0 "t") ∧
    TopicsNonempty (handleMessage selfPubState 0 examplePublish).1 ∧
    TopicsNonempty (closeSession selfPubState 0).1 ∧
    TopicsNonempty (handleSession selfPubState 1 13) ∧
    TopicsNonempty (heartbeatTick selfPubState 0).1 ∧
    (lookupA (removeSubscription selfPubState 0 "t").topics "t" = none ∧
      ∀ subs2, ("t", subs2) ∉ (removeSubscription selfPubState 0 "t").topics) := by
  have h := topics_nonempty_invariant selfPubState (by unfold NodupA keysA; decide)
    (by unfold TopicsNonempty; decide)
  exact ⟨h.1 1 "u", h.2.1 0 "t", h.2.2.1 0 examplePublish, h.2.2.2.1 0,
    h.2.2.2.2.1 1 13, h.2.2.2.2.2.1 0, h.2.2.2.2.2.2 0 "t" [0] rfl rfl⟩

/-- Session lookup after `addSubscription`, own entry present. -/
theorem addSubscription_sessions_lookup_self_some (st : HubState) (ws : Nat) (t : String)
    (s : SessionData) (h : lookupA st.sessions ws = some s) :
    lookupA (addSubscription st ws t).sessions ws =
      some { s with subscribedTopics := insertS s.subscribedTopics t } := by
  simp only [addSubscription_sessions, h]
  exact lookupA_setA_self _ _ _

/-- Session lookup after `addSubscription`, own entry absent. -/
theorem addSubscription_sessions_lookup_self_none (st : HubState) (ws : Nat) (t : String)
    (h : lookupA st.sessions ws = none) :
    lookupA (addSubscription st ws t).sessions ws = none := by
  simp only [addSubscription_sessions, h]

/-- Session lookup after `addSubscription` for another connection. -/
theorem addSubscription_sessions_lookup_ne (st : HubState) (ws : Nat) (t : String)
    (w : Nat) (hne : w ≠ ws) :
    lookupA (addSubscription st ws t).sessions w = lookupA st.sessions w := by
  cases hws : lookupA st.sessions ws with
  | none => simp only [addSubscription_sessions, hws]
  | some s =>
    simp only [addSubscription_sessions, hws]
    exact lookupA_setA_ne _ _ _ _ hne

/-- Session lookup after `removeSubscription`, own entry present. -/
theorem removeSubscription_sessions_lookup_self_some (st : HubState) (ws : Nat) (t : String)
    (s : SessionData) (h : lookupA st.sessions ws = some s) :
    lookupA (removeSubscription st ws t).sessions ws =
      some { s with subscribedTopics := eraseS s.subscribedTopics t } := by
  rw [removeSubscription_sessions_of_some st ws t s h]
  exact lookupA_setA_self _ _ _

/-- Session lookup after `removeSubscription`, own entry absent. -/
theorem removeSubscription_sessions_lookup_self_none (st : HubState) (ws : Nat) (t : String)
    (h : lookupA st.sessions ws = none) :
    lookupA (removeSubscription st ws t).sessions ws = none := by
  rw [removeSubscription_sessions_of_none st ws t h]
  exact h

/-- Session lookup after `removeSubscription` for another connection. -/
theorem removeSubscription_sessions_lookup_ne (st : HubState) (ws : Nat) (t : String)
    (w : Nat) (hne : w ≠ ws) :
    lookupA (removeSubscription st ws t).sessions w = lookupA st.sessions w := by
  cases hws : lookupA st.sessions ws with
  | none => rw [removeSubscription_sessions_of_none st ws t hws]
  | some s =>
    rw [removeSubscription_sessions_of_some st ws t s hws]
    exact lookupA_setA_ne _ _ _ _ hne

/-- Replacing a session record by one with the same subscribed-topics set
preserves the bidirectional consistency invariant. -/
theorem setSession_same_topics_consistent (st : HubState) (ws : Nat) (s s2 : SessionData)
    (hws : lookupA st.sessions ws = some s)
    (hsame : s2.subscribedTopics = s.subscribedTopics) (hc : Consistent st) :
    Consistent { st with sessions := setA st.sessions ws s2 } := by
  intro w s1 hw1 q
  have hw1a : lookupA (setA st.sessions ws s2) w = some s1 := hw1
  by_cases hwws : w = ws
  · subst hwws
    rw [lookupA_setA_self] at hw1a
    injection hw1a with hw1a
    subst hw1a
    rw [hsame]
    exact hc w s hws q
  · rw [lookupA_setA_ne _ _ _ _ hwws] at hw1a
    exact hc w s1 hw1a q

/-- `addSubscription` preserves the bidirectional consistency invariant. -/
theorem addSubscription_consistent (st : HubState) (ws : Nat) (t : String)
    (hc : Consistent st) : Consistent (addSubscription st ws t) := by
  have htT : lookupA (addSubscription st ws t).topics t =
      some (insertS ((lookupA st.topics t).getD []) ws) := by
    rw [addSubscription_topics]
    exact lookupA_setA_self _ _ _
  have htQ : ∀ q, q ≠ t → lookupA (addSubscription st ws t).topics q = lookupA st.topics q := by
    intro q hne
    rw [addSubscription_topics]
    exact lookupA_setA_ne _ _ _ _ hne
  intro w s1 hw1 q
  by_cases hwws : w = ws
  · subst hwws
    cases hws : lookupA st.sessions w with
    | none =>
      rw [addSubscription_sessions_lookup_self_none st w t hws] at hw1
      exact Option.noConfusion hw1
    | some s =>
      rw [addSubscription_sessions_lookup_self_some st w t s hws] at hw1
      injection hw1 with hw1
      subst hw1
      by_cases hqt : q = t
      · subst hqt
        constructor
        · intro _
          exact ⟨_, htT, self_mem_insertS _ w⟩
        · intro _
          exact self_mem_insertS s.subscribedTopics q
      · rw [htQ q hqt]
        have hiff := hc w s hws q
        constructor
        · intro hmem
          rcases (mem_insertS s.subscribedTopics q t).mp hmem with hm | hm
          · exact hiff.mp hm
          · exact absurd hm hqt
        · intro hex
          exact (mem_insertS s.subscribedTopics q t).mpr (Or.inl (hiff.mpr hex))
  · have hw0 : lookupA st.sessions w = some s1 := by
      rw [addSubscription_sessions_lookup_ne st ws t w hwws] at hw1
      exact hw1
    have hiff := hc w s1 hw0 q
    by_cases hqt : q = t
    · subst hqt
      constructor
      · intro hmem
        obtain ⟨subs0, hl0, hm0⟩ := hiff.mp hmem
        refine ⟨_, htT, ?_⟩
        rw [hl0]
        exact (mem_insertS subs0 w ws).mpr (Or.inl hm0)
      · rintro ⟨subs2, hl2, hm2⟩
        rw [htT] at hl2
        injection hl2 with hl2
        subst hl2
        rcases (mem_insertS _ w ws).mp hm2 with hm | hm
        · cases hl0 : lookupA st.topics q with
          | none =>
            rw [hl0] at hm
            exact absurd hm (List.not_mem_nil w)
          | some subs0 =>
            rw [hl0] at hm
            exact hiff.mpr ⟨subs0, hl0, hm⟩
        · exact absurd hm hwws
    · rw [htQ q hqt]
      exact hiff

/-- `removeSubscription` preserves the bidirectional consistency
invariant. -/
theorem removeSubscription_consistent (st : HubState) (ws : Nat) (t : String)
    (hndT : NodupA st.topics) (hc : Consistent st) :
    Consistent (removeSubscription st ws t) := by
  intro w s1 hw1 q
  by_cases hqt : q = t
  · subst hqt
    by_cases hwws : w = ws
    · subst hwws
      cases hws : lookupA st.sessions w with
      | none =>
        rw [removeSubscription_sessions_lookup_self_none st w _ hws] at hw1
        exact Option.noConfusion hw1
      | some s =>
        rw [removeSubscription_sessions_lookup_self_some st w _ s hws] at hw1
        injection hw1 with hw1
        subst hw1
        constructor
        · intro hmem
          exact absurd hmem (not_mem_eraseS s.subscribedTopics q)
        · rintro ⟨subs2, hl2, hm2⟩
          exact absurd hm2 ((removeSubscription_clears st w q hndT subs2 hl2).1)
    · have hw0 : lookupA st.sessions w = some s1 := by
        rw [removeSubscription_sessions_lookup_ne st ws _ w hwws] at hw1
        exact hw1
      have hiff := hc w s1 hw0 q
      cases hts : lookupA st.topics q with
      | none =>
        have htQ : lookupA (removeSubscription st ws q).topics q = none := by
          rw [removeSubscription_topics_of_none st ws q hts]
          exact hts
        constructor
        · intro hmem
          obtain ⟨subs0, hl0, _⟩ := hiff.mp hmem
          rw [hts] at hl0
          exact Option.noConfusion hl0
        · rintro ⟨subs2, hl2, _⟩
          rw [htQ] at hl2
          exact Option.noConfusion hl2
      | some subs =>
        by_cases hz : (eraseS subs ws).length = 0
        · have htQ : lookupA (removeSubscription st ws q).topics q = none := by
            rw [removeSubscription_topics_of_some st ws q subs hts, if_pos hz]
            exact lookupA_eraseA_self st.topics q hndT
          constructor
          · intro hmem
            obtain ⟨subs0, hl0, hm0⟩ := hiff.mp hmem
            rw [hts] at hl0
            injection hl0 with hl0
            subst hl0
            rw [List.length_eq_zero] at hz
            have hmem2 : w ∈ eraseS subs ws := (mem_eraseS subs w ws).mpr ⟨hm0, hwws⟩
            rw [hz] at hmem2
            exact absurd hmem2 (List.not_mem_nil w)
          · rintro ⟨subs2, hl2, _⟩
            rw [htQ] at hl2
            exact Option.noConfusion hl2
        · have htQ : lookupA (removeSubscription st ws q).topics q =
              some (eraseS subs ws) := by
            rw [removeSubscription_topics_of_some st ws q subs hts, if_neg hz]
            exact lookupA_setA_self _ _ _
          constructor
          · intro hmem
            obtain ⟨subs0, hl0, hm0⟩ := hiff.mp hmem
            rw [hts] at hl0
            injection hl0 with hl0
            subst hl0
            exact ⟨_, htQ, (mem_eraseS subs w ws).mpr ⟨hm0, hwws⟩⟩
          · rintro ⟨subs2, hl2, hm2⟩
            rw [htQ] at hl2
            injection hl2 with hl2
            subst hl2
            exact hiff.mpr ⟨subs, hts, ((mem_eraseS subs w ws).mp hm2).1⟩
  · have htQ := removeSubscription_topics_lookup_ne st ws t q hqt
    by_cases hwws : w = ws
    · subst hwws
      cases hws : lookupA st.sessions w with
      | none =>
        rw [removeSubscription_sessions_lookup_self_none st w t hws] at hw1
        exact Option.noConfusion hw1
      | some s =>
        rw [removeSubscription_sessions_lookup_self_some st w t s hws] at hw1
        injection hw1 with hw1
        subst hw1
        rw [htQ]
        have hiff := hc w s hws q
        constructor
        · intro hmem
          exact hiff.mp ((mem_eraseS s.subscribedTopics q t).mp hmem).1
        · intro hex
          exact (mem_eraseS s.subscribedTopics q t).mpr ⟨hiff.mpr hex, hqt⟩
    · have hw0 : lookupA st.sessions w = some s1 := by
        rw [removeSubscription_sessions_lookup_ne st ws t w hwws] at hw1
        exact hw1
      rw [htQ]
      exact hc w s1 hw0 q

/-- `handleSubscribe` preserves the bidirectional consistency invariant. -/
theorem handleSubscribe_consistent (ws : Nat) (ts : List String) (st : HubState)
    (hc : Consistent st) : Consistent (handleSubscribe st ws ts) := by
  induction ts generalizing st with
  | nil => exact hc
  | cons t ts ih => exact ih (addSubscription st ws t) (addSubscription_consistent st ws t hc)

/-- `handleUnsubscribe` (V2) preserves the bidirectional consistency
invariant. -/
theorem handleUnsubscribeV2_consistent (ws : Nat) (ts : List String) (st : HubState)
    (hndT : NodupA st.topics) (hc : Consistent st) :
    Consistent (handleUnsubscribeV2 st ws ts) := by
  induction ts generalizing st with
  | nil => exact hc
  | cons t ts ih =>
    exact ih (removeSubscription st ws t) (removeSubscription_topics_nodup st ws t hndT)
      (removeSubscription_consistent st ws t hndT hc)

/-- `closeSession` preserves the bidirectional consistency invariant. -/
theorem closeSession_consistent (st : HubState) (ws : Nat)
    (hndS : NodupA st.sessions) (hndT : NodupA st.topics) (hc : Consistent st) :
    Consistent (closeSession st ws).1 := by
  cases hws : lookupA st.sessions ws with
  | none => rw [closeSession_of_none st ws hws]; exact hc
  | some s =>
    rw [closeSession_eq st ws s hws]
    have hc1 : Consistent
        { st with sessions := setA st.sessions ws { s with quit := true, intervalId := none } } :=
      setSession_same_topics_consistent st ws s _ hws rfl hc
    have hc2 : Consistent (teardownCore st ws s) := by
      unfold teardownCore
      exact handleUnsubscribeV2_consistent ws s.subscribedTopics _ hndT hc1
    have hndS2 : NodupA (teardownCore st ws s).sessions := by
      unfold teardownCore
      exact foldRemove_sessions_nodup ws s.subscribedTopics _ (NodupA_setA ws _ hndS)
    intro w s1 hw1 q
    have hw1a : lookupA (eraseA (teardownCore st ws s).sessions ws) w = some s1 := hw1
    by_cases hwws : w = ws
    · subst hwws
      rw [lookupA_eraseA_self _ _ hndS2] at hw1a
      exact Option.noConfusion hw1a
    · rw [lookupA_eraseA_ne _ _ _ hwws] at hw1a
      exact hc2 w s1 hw1a q

/-- Accepting a fresh connection (one in no topic's subscriber set)
preserves the bidirectional consistency invariant. -/
theorem handleSession_consistent (st : HubState) (ws tid : Nat)
    (hfresh : ∀ p ∈ st.topics, ws ∉ p.2) (hc : Consistent st) :
    Consistent (handleSession st ws tid) := by
  intro w s1 hw1 q
  have hw1a : lookupA (setA st.sessions ws ⟨[], true, false, some tid⟩) w = some s1 := hw1
  by_cases hwws : w = ws
  · subst hwws
    rw [lookupA_setA_self] at hw1a
    injection hw1a with hw1a
    subst hw1a
    constructor
    · intro hmem
      exact absurd hmem (List.not_mem_nil q)
    · rintro ⟨subs, hl, hmem⟩
      exact absurd hmem (hfresh (q, subs) (lookupA_mem hl))
  · rw [lookupA_setA_ne _ _ _ _ hwws] at hw1a
    exact hc w s1 hw1a q

/-- `handleMessage` preserves the bidirectional consistency invariant. -/
theorem handleMessage_consistent (st : HubState) (ws : Nat) (msg : Json)
    (hndT : NodupA st.topics) (hc : Consistent st) :
    Consistent (handleMessage st ws msg).1 := by
  cases hws : lookupA st.sessions ws with
  | none =>
    have he : handleMessage st ws msg = (st, []) := by simp [handleMessage, hws]
    rw [he]
    exact hc
  | some s =>
    by_cases hq : s.quit = true
    · have he : handleMessage st ws msg = (st, []) := by simp [handleMessage, hws, hq]
      rw [he]
      exact hc
    · cases hty : msg.getType with
      | none =>
        have he : handleMessage st ws msg = (st, []) := by simp [handleMessage, hws, hq, hty]
        rw [he]
        exact hc
      | some ty =>
        by_cases h1 : ty = "subscribe"
        · subst h1
          have he : handleMessage st ws msg = (handleSubscribe st ws msg.getTopics, []) := by
            simp [handleMessage, hws, hq, hty]
          rw [he]
          exact handleSubscribe_consistent ws msg.getTopics st hc
        · by_cases h2 : ty = "unsubscribe"
          · subst h2
            have he : handleMessage st ws msg =
                (handleUnsubscribeV2 st ws msg.getTopics, []) := by
              simp [handleMessage, hws, hq, hty]
            rw [he]
            exact handleUnsubscribeV2_consistent ws msg.getTopics st hndT hc
          · by_cases h3 : ty = "publish"
            · subst h3
              have he : (handleMessage st ws msg).1 = st := by
                simp [handleMessage, hws, hq, hty]
              rw [he]
              exact hc
            · by_cases h4 : ty = "ping"
              · subst h4
                have he : (handleMessage st ws msg).1 = st := by
                  simp [handleMessage, hws, hq, hty]
                rw [he]
                exact hc
              · by_cases h5 : ty = "pong"
                · subst h5
                  have he : (handleMessage st ws msg).1 =
                      { st with sessions := setA st.sessions ws { s with alive := true } } := by
                    simp [handleMessage, hws, hq, hty]
                  rw [he]
                  exact setSession_same_topics_consistent st ws s _ hws rfl hc
                · have he : (handleMessage st ws msg).1 = st := by
                    simp [handleMessage, hws, hq, hty, h1, h2, h3, h4, h5]
                  rw [he]
                  exact hc

/-- `heartbeatTick` preserves the bidirectional consistency invariant. -/
theorem heartbeatTick_consistent (st : HubState) (ws : Nat)
    (hndS : NodupA st.sessions) (hndT : NodupA st.topics) (hc : Consistent st) :
    Consistent (heartbeatTick st ws).1 := by
  cases hws : lookupA st.sessions ws with
  | none =>
    have he : heartbeatTick st ws = (st, [], false) := by simp [heartbeatTick, hws]
    rw [he]
    exact hc
  | some s =>
    by_cases ha : s.alive = true
    · rw [heartbeatTick_alive st ws s hws ha]
      exact setSession_same_topics_consistent st ws s _ hws rfl hc
    · have ha2 : s.alive = false := by
        cases hb : s.alive
        · rfl
        · exact absurd hb ha
      rw [heartbeatTick_dead st ws s hws ha2]
      exact closeSession_consistent st ws hndS hndT hc

/-- C5 counterexample: after the lenient variant's unsubscribe, session 0
still lists topic t in its subscribed set while t's subscriber set no
longer contains connection 0, so the bidirectional consistency invariant
is violated. -/
theorem unsubscribeV1_breaks_bidirectional_consistency :
    lookupA (handleUnsubscribeV1 selfPubState 0 ["t"]).sessions 0 =
      some ⟨["t"], true, false, some 10⟩ ∧
    lookupA (handleUnsubscribeV1 selfPubState 0 ["t"]).topics "t" = some [] ∧
    ¬ Consistent (handleUnsubscribeV1 selfPubState 0 ["t"]) := by
  refine ⟨rfl, rfl, fun hc => ?_⟩
  have h := (hc 0 ⟨["t"], true, false, some 10⟩ rfl "t").mp (List.mem_singleton.mpr rfl)
  obtain ⟨subs, hl, hmem⟩ := h
  have hsubs : subs = [] := by
    have : (some subs : Option (List Nat)) = some [] := by rw [← hl]; rfl
    injection this
  rw [hsubs] at hmem
  exact absurd hmem (List.not_mem_nil 0)

/-- C5 amended: the bidirectional consistency invariant is preserved by
subscribe, publish, teardown, the heartbeat, acceptance of a fresh
connection and the hardened variant's unsubscribe; the lenient variant's
unsubscribe violates it (see the counterexample), removing the connection
from the topic's subscriber set while leaving the topic in the session's
subscribed set. -/
theorem bidirectional_consistency_invariant (st : HubState)
    (hndS : NodupA st.sessions) (hndT : NodupA st.topics) (hc : Consistent st) :
    (∀ ws t, Consistent (addSubscription st ws t)) ∧
    (∀ ws t, Consistent (removeSubscription st ws t)) ∧
    (∀ ws msg, Consistent (handleMessage st ws msg).1) ∧
    (∀ ws, Consistent (closeSession st ws).1) ∧
    (∀ ws tid, (∀ p ∈ st.topics, ws ∉ p.2) → Consistent (handleSession st ws tid)) ∧
    (∀ ws, Consistent (heartbeatTick st ws).1) :=
  ⟨fun ws t => addSubscription_consistent st ws t hc,
   fun ws t => removeSubscription_consistent st ws t hndT hc,
   fun ws msg => handleMessage_consistent st ws msg hndT hc,
   fun ws => closeSession_consistent st ws hndS hndT hc,
   fun ws tid hfresh => handleSession_consistent st ws tid hfresh hc,
   fun ws => heartbeatTick_consistent st ws hndS hndT hc⟩

/-- The empty room. -/
def emptyHub : HubState := { sessions := [], topics := [] }

/-- The empty room is consistent. -/
theorem emptyHub_consistent : Consistent emptyHub := by
  intro w s h
  exact absurd h (by simp [emptyHub, lookupA])

/-- C5 witness: the amended invariant evaluated at concrete inputs over
the empty room. -/
theorem bidirectional_consistency_invariant_witness :
    Consistent (addSubscription emptyHub 0 "t") ∧
    Consistent (removeSubscription emptyHub 0 "t") ∧
    Consistent (handleMessage emptyHub 0 examplePublish).1 ∧
    Consistent (closeSession emptyHub 0).1 ∧
    Consistent (handleSession emptyHub 0 10) ∧
    Consistent (heartbeatTick emptyHub 0).1 := by
  have h := bidirectional_consistency_invariant emptyHub (by unfold NodupA keysA; decide)
    (by unfold NodupA keysA; decide) emptyHub_consistent
  exact ⟨h.1 0 "t", h.2.1 0 "t", h.2.2.1 0 examplePublish, h.2.2.2.1 0,
    h.2.2.2.2.1 0 10 (fun p hp => absurd hp (List.not_mem_nil p)),
    h.2.2.2.2.2 0⟩

/-- C10: immediately after a connection is accepted, the first heartbeat
tick sends a ping probe and never evicts, because `handleSession`
initializes the liveness flag to true and eviction requires observing it
false. -/
theorem first_tick_pings_never_evicts (st : HubState) (ws tid : Nat) :
    (heartbeatTick (handleSession st ws tid) ws).2.1 = [(ws, pingFrame)] ∧
    (heartbeatTick (handleSession st ws tid) ws).2.2 = false ∧
    lookupA (heartbeatTick (handleSession st ws tid) ws).1.sessions ws =
      some ⟨[], false, false, some tid⟩ := by
  have hl : lookupA (handleSession st ws tid).sessions ws = some ⟨[], true, false, some tid⟩ := by
    unfold handleSession
    exact lookupA_setA_self st.sessions ws _
  refine ⟨?_, ?_, ?_⟩
  · simp [heartbeatTick, hl]
  · simp [heartbeatTick, hl]
  · simp [heartbeatTick, hl, lookupA_setA_self]

end SignalHub
